import Mathlib

/-!
Verification development for src/randomize_excel_values.py.

The script batch-edits Excel files: for each file it makes a backup copy,
reads the sheet, resolves a fixed list of target column names (exact match
first, then a fuzzy normalized-substring match), replaces every cell that
pandas coerces to a number by round(random.uniform(MIN_VALUE, MAX_VALUE), 13),
and writes the table to the output directory.

Embedding conventions:
* numbers are rationals (the source uses Python floats; claims are about the
  exact values the arithmetic denotes, not about binary float representation);
* the random draws of random.uniform are an explicit stream g : ℕ → ℚ with a
  cursor k; one draw is consumed per generated value, in program order;
* the filesystem is a map from (directory, filename) to file data; reading and
  parsing an input file is represented by the parameters raw (the input bytes,
  as copied by shutil.copy2) and parsed (none models a read/parse exception,
  mirroring the try/except in process_excel_file); writeOk = false models an
  exception raised by DataFrame.to_excel;
* console output and file timestamps are not modelled (logging only).
-/

/-- Directory constants of the script (source lines 17-19). -/
def INPUT_DIR : String := "src/xlsx"

/-- Output directory constant (source line 18). -/
def OUTPUT_DIR : String := "output"

/-- Backup directory constant (source line 19). -/
def BACKUP_DIR : String := "backup"

/-- The fixed list of target column names (source lines 22-30). -/
def TARGET_COLUMNS : List String :=
  ["МЗ 1/60", "МЗ 2/60", "МЗ 3/60", "УЗ 3/60", "МЗ 1/40", "МЗ 2/40", "МЗ 3/40"]

/-- Lower bound of the replacement range, 20.9 (source line 33). -/
def MIN_VALUE : ℚ := mkRat 209 10

/-- Upper bound of the replacement range, 22.1 (source line 34). -/
def MAX_VALUE : ℚ := mkRat 221 10

/-- Timestamp-preservation flag (source line 44); timestamps themselves are
outside the model. -/
def PRESERVE_FILE_DATES : Bool := true

/-- Round a rational to the nearest integer, ties going to the even integer.
This is the rounding rule of Python's built-in round(). -/
def roundHalfEven (q : ℚ) : ℤ :=
  let f := ⌊q⌋
  if q - f < 1 / 2 then f
  else if 1 / 2 < q - f then f + 1
  else if 2 ∣ f then f else f + 1

/-- Python round(q, n): round to n fractional digits, ties to even. -/
def pyRound (q : ℚ) (n : ℕ) : ℚ := (roundHalfEven (q * 10 ^ n) : ℚ) / 10 ^ n

/-- generate_random_value (source lines 45-50): round(random.uniform(min, max), 13).
The argument u is the draw returned by random.uniform, which lies in the
inclusive range [min, max]. -/
def generate_random_value (u : ℚ) : ℚ := pyRound u 13

/-- A spreadsheet cell as pandas reads it: a number, a text string, or empty
(NaN). -/
inductive Cell : Type
  | num (q : ℚ)
  | text (s : String)
  | empty
  deriving DecidableEq, Repr

/-- Numeric value of a list of decimal digit characters (guards for digitness
are applied by the caller). -/
def digitsVal (cs : List Char) : ℕ :=
  cs.foldl (fun a c => 10 * a + (c.toNat - 48)) 0

/-- Whitespace as stripped around numeric literals. -/
def isSpaceChar (c : Char) : Bool :=
  c = ' ' || c = '\t' || c = '\n' || c = '\r'

/-- Strip leading and trailing whitespace from a character list. -/
def trimChars (cs : List Char) : List Char :=
  ((cs.dropWhile isSpaceChar).reverse.dropWhile isSpaceChar).reverse

/-- Models the coercion pandas.to_numeric applies to a string: an optional
sign followed by a plain decimal literal (surrounding whitespace ignored).
Scientific notation and other accepted spellings are immaterial to the
claims, which only distinguish cells that coerce from cells that do not. -/
def parseDecimal (s : String) : Option ℚ :=
  let cs := trimChars s.data
  let sign : ℚ := match cs with
    | '-' :: _ => -1
    | _ => 1
  let body := match cs with
    | '-' :: rest => rest
    | '+' :: rest => rest
    | _ => cs
  let intPart := body.takeWhile Char.isDigit
  let rest := body.dropWhile Char.isDigit
  match rest with
  | [] =>
    if intPart.isEmpty then none
    else some (sign * (digitsVal intPart : ℚ))
  | '.' :: frac =>
    if frac.all Char.isDigit && !(intPart.isEmpty && frac.isEmpty) then
      some (sign * ((digitsVal intPart : ℚ) + (digitsVal frac : ℚ) / 10 ^ frac.length))
    else none
  | _ => none

/-- Whether pd.to_numeric(value, errors=coerce) yields a number for this cell
(source line 149): numbers do, strings do when they parse as a numeric
literal, empty cells (NaN) do not. -/
def cellIsNumeric : Cell → Bool
  | .num _ => true
  | .text s => (parseDecimal s).isSome
  | .empty => false

/-- numeric_mask.sum() of source line 150: how many cells of the column are
numeric. -/
def numericCount (cells : List Cell) : ℕ := (cells.filter cellIsNumeric).length

/-- A pandas DataFrame: ordered columns, each a label with its cell list. -/
structure DataFrame : Type where
  cols : List (String × List Cell)
  deriving DecidableEq, Repr

/-- df.columns: the labels in order. -/
def DataFrame.columns (df : DataFrame) : List String := df.cols.map Prod.fst

/-- First column with the given label, as df[col] selects it. -/
def lookupCol : List (String × List Cell) → String → Option (List Cell)
  | [], _ => none
  | p :: ps, c => if p.1 = c then some p.2 else lookupCol ps c

/-- df[col] for a label known to be present; defaults to the empty column. -/
def DataFrame.getCol (df : DataFrame) (c : String) : List Cell :=
  (lookupCol df.cols c).getD []

/-- df.loc[mask, col] = values, at the column level: replace the cells of the
column(s) labelled c. -/
def DataFrame.setCol (df : DataFrame) (c : String) (cells : List Cell) : DataFrame :=
  ⟨df.cols.map (fun p => if p.1 = c then (p.1, cells) else p)⟩

/-- Python str.lower for the alphabets in play (ASCII and Cyrillic); applied
during fuzzy column matching. -/
def pyLower (c : Char) : Char :=
  if 'A' ≤ c && c ≤ 'Z' then Char.ofNat (c.toNat + 32)
  else if 'А' ≤ c && c ≤ 'Я' then Char.ofNat (c.toNat + 32)
  else if c = 'Ё' then 'ё'
  else c

/-- name.replace(" ", "").lower() of source line 120. -/
def normName (s : String) : List Char :=
  (s.data.filter (fun c => c != ' ')).map pyLower

/-- The fuzzy test of source line 120: the normalized target name occurs as a
substring of the normalized column name. -/
def matchesFuzzy (target col : String) : Bool :=
  decide (List.IsInfix (normName target) (normName col))

/-- Column resolution loop (source lines 114-123): for each target, take the
exact label when present, otherwise every label that fuzzy-matches. -/
def findColumns : List String → List String → List String
  | [], _ => []
  | t :: ts, cols =>
    (if t ∈ cols then [t] else cols.filter (fun c => matchesFuzzy t c)) ++
      findColumns ts cols

/-- The column update of source lines 149-159: each numeric cell receives the
next generated value (draws consumed in row order); other cells are kept.
Returns the new cells and the advanced draw cursor. -/
def replaceNumeric (g : ℕ → ℚ) : ℕ → List Cell → List Cell × ℕ
  | k, [] => ([], k)
  | k, c :: cs =>
    if cellIsNumeric c then
      let r := replaceNumeric g (k + 1) cs
      (Cell.num (generate_random_value (g k)) :: r.1, r.2)
    else
      let r := replaceNumeric g k cs
      (c :: r.1, r.2)

/-- The per-column loop of source lines 145-166: for each found column that is
present, if it has numeric cells, overwrite them with fresh draws and record
that a change was made. Returns the updated table, draw cursor, and the
changes_made flag. -/
def applyColumns (g : ℕ → ℚ) : List String → DataFrame → ℕ → Bool → DataFrame × ℕ × Bool
  | [], df, k, ch => (df, k, ch)
  | c :: cs, df, k, ch =>
    if c ∈ df.columns then
      if 0 < numericCount (df.getCol c) then
        let r := replaceNumeric g k (df.getCol c)
        applyColumns g cs (df.setCol c r.1) r.2 true
      else applyColumns g cs df k ch
    else applyColumns g cs df k ch

/-- Contents of a file: raw bytes for inputs and backups, a written table for
outputs. -/
inductive FileData : Type
  | bytes (s : String)
  | table (df : DataFrame)
  deriving DecidableEq, Repr

/-- The filesystem: directory and filename to file data. -/
def FS : Type := String → String → Option FileData

/-- Writing one file. -/
def FS.update (fs : FS) (dir name : String) (v : FileData) : FS :=
  fun d n => if d = dir ∧ n = name then some v else fs d n

/-- os.path.basename for slash-separated paths: the characters after the last
slash. -/
def basename (p : String) : String :=
  ⟨p.data.foldl (fun acc c => if c = '/' then [] else acc ++ [c]) []⟩

/-- backup_file (source lines 58-67): copy the input to BACKUP_DIR unless a
backup of that filename already exists. -/
def backup_file (fs : FS) (file_path : String) (raw : String) : FS :=
  let filename := basename file_path
  if (fs BACKUP_DIR filename).isSome then fs
  else fs.update BACKUP_DIR filename (FileData.bytes raw)

/-- Exit paths of process_excel_file. The Python function returns a bool
(retBool below); the constructors record which return site was taken, which
the source distinguishes only in its log messages. -/
inductive ProcResult : Type
  | failure
  | noColumnsFound
  | noChanges
  | testDone
  | written (df : DataFrame)
  deriving DecidableEq, Repr

/-- The boolean process_excel_file actually returns: True on the success
paths (lines 142 and 183), False on every other path (lines 127, 170, 187). -/
def retBool : ProcResult → Bool
  | .written _ => true
  | .testDone => true
  | _ => false

/-- The output file written by an exit path, if any. -/
def outputOf : ProcResult → Option DataFrame
  | .written df => some df
  | _ => none

/-- process_excel_file (source lines 89-187). In apply mode the backup is made
first; then the file is read (parsed = none models a read exception), target
columns are resolved, and either the test-mode report, the no-columns skip,
the no-changes skip, the written output, or a caught exception results. -/
def process_excel_file (g : ℕ → ℚ) (k : ℕ) (fs : FS) (file_path : String)
    (raw : String) (parsed : Option DataFrame) (writeOk : Bool) (test_mode : Bool) :
    FS × ProcResult × ℕ :=
  let fs1 := if test_mode then fs else backup_file fs file_path raw
  match parsed with
  | none => (fs1, ProcResult.failure, k)
  | some df =>
    let found := findColumns TARGET_COLUMNS df.columns
    if found = [] then (fs1, ProcResult.noColumnsFound, k)
    else if test_mode then (fs1, ProcResult.testDone, k)
    else
      let r := applyColumns g found df k false
      if r.2.2 = false then (fs1, ProcResult.noChanges, r.2.1)
      else if writeOk then
        (fs1.update OUTPUT_DIR (basename file_path) (FileData.table r.1),
          ProcResult.written r.1, r.2.1)
      else (fs1, ProcResult.failure, r.2.1)

/-- One input file of a batch run: its path, raw bytes, parse outcome, and
whether writing its output would succeed. -/
structure BatchFile : Type where
  path : String
  raw : String
  parsed : Option DataFrame
  writeOk : Bool

/-- The batch loop of main, menu choice 2 (source lines 227-243): process
every file in order, collecting each per-file result. -/
def runBatch (g : ℕ → ℚ) : ℕ → FS → List BatchFile → FS × ℕ × List ProcResult
  | k, fs, [] => (fs, k, [])
  | k, fs, f :: more =>
    let p := process_excel_file g k fs f.path f.raw f.parsed f.writeOk false
    let rest := runBatch g p.2.2 p.1 more
    (rest.1, rest.2.1, p.2.1 :: rest.2.2)

/-- The failed counter printed by main as the error total (lines 238-243). -/
def failedCount (rs : List ProcResult) : ℕ :=
  (rs.filter (fun r => !retBool r)).length

/-- The successful counter of main (lines 236-242). -/
def successCount (rs : List ProcResult) : ℕ := (rs.filter retBool).length

/-- How one cell of a processed column relates to its input over the draw
window [lo, hi): a non-numeric cell is kept verbatim, a numeric cell holds a
freshly generated value. -/
def cellEvolves (g : ℕ → ℚ) (lo hi : ℕ) (a b : Cell) : Prop :=
  (cellIsNumeric a = false ∧ b = a) ∨
  (cellIsNumeric a = true ∧
    ∃ j, lo ≤ j ∧ j < hi ∧ b = Cell.num (generate_random_value (g j)))

/-- Pointwise lift of cellEvolves to whole columns, lengths preserved. -/
def colEvolves (g : ℕ → ℚ) (lo hi : ℕ) (as bs : List Cell) : Prop :=
  bs.length = as.length ∧
  ∀ i (ha : i < as.length) (hb : i < bs.length),
    cellEvolves g lo hi (as.get ⟨i, ha⟩) (bs.get ⟨i, hb⟩)

/-- Fixture: a filesystem already holding a backup of a.xlsx. -/
def fsWithBackup : FS := fun d n =>
  if d = "backup" ∧ n = "a.xlsx" then some (FileData.bytes "orig") else none

def TableRel (g : ℕ → ℚ) (lo hi : ℕ) (found : List String) (A B : DataFrame) : Prop :=
  List.Forall₂ (fun p q =>
    q.1 = p.1 ∧ (p.1 ∉ found → q = p) ∧ (p.1 ∈ found → colEvolves g lo hi p.2 q.2))
    A.cols B.cols

def gConst : ℕ → ℚ := fun _ => 21

def emptyFS : FS := fun _ _ => none

def dfC1 : DataFrame :=
  ⟨[("МЗ 1/60", [Cell.num (mkRat 43 2), Cell.text "x"]),
    ("прочее", [Cell.empty, Cell.text "01"])]⟩

def dfC1out : DataFrame :=
  ⟨[("МЗ 1/60", [Cell.num (generate_random_value (gConst 0)), Cell.text "x"]),
    ("прочее", [Cell.empty, Cell.text "01"])]⟩

def dfC2 : DataFrame := ⟨[("МЗ 1/60", [Cell.text "abc", Cell.empty])]⟩

def dfC3 : DataFrame := ⟨[("имя", [Cell.text "a"])]⟩

/-- Reading back the file just written. -/
theorem FS.update_same (fs : FS) (d n : String) (v : FileData) :
    fs.update d n v d n = some v := by
  simp [FS.update]

/-- Updates do not touch other keys. -/
theorem FS.update_other (fs : FS) (d n d' n' : String) (v : FileData)
    (h : ¬(d' = d ∧ n' = n)) : fs.update d n v d' n' = fs d' n' := by
  simp only [FS.update, if_neg h]

/-- Lower bound: rounding never drops below an integer lower bound of the
argument. -/
theorem roundHalfEven_ge (n : ℤ) (q : ℚ) (h : (n : ℚ) ≤ q) :
    n ≤ roundHalfEven q := by
  have hf : n ≤ ⌊q⌋ := Int.le_floor.mpr h
  unfold roundHalfEven
  dsimp only
  split
  · exact hf
  · split
    · omega
    · split
      · exact hf
      · omega

/-- Upper bound: rounding never exceeds an integer upper bound of the
argument. -/
theorem roundHalfEven_le (n : ℤ) (q : ℚ) (h : q ≤ (n : ℚ)) :
    roundHalfEven q ≤ n := by
  have hfl : ⌊q⌋ ≤ n := by
    have h1 : ⌊q⌋ ≤ ⌊(n : ℚ)⌋ := Int.floor_le_floor h
    simpa using h1
  unfold roundHalfEven
  dsimp only
  split
  · exact hfl
  next h1 =>
    have hq : (⌊q⌋ : ℚ) + 1 / 2 ≤ q := by
      push_neg at h1
      linarith
    have hfn : ⌊q⌋ < n := by
      have h2 : (⌊q⌋ : ℚ) < (n : ℚ) := by linarith
      exact_mod_cast h2
    split
    · omega
    · split
      · omega
      · omega

/-- C5: every value produced by generate_random_value from a draw of
random.uniform(MIN_VALUE, MAX_VALUE) — random.uniform returns a value in the
inclusive range [MIN_VALUE, MAX_VALUE] — lies in the inclusive range
[MIN_VALUE, MAX_VALUE] and is an integer multiple of 10 ^ (-13), i.e. rounded
to 13 fractional digits. (Uniformity of the distribution is a property of the
external stdlib generator random.uniform, modelled here as an arbitrary
in-range draw.) -/
theorem c5_generate_in_range_rounded (u : ℚ)
    (h1 : MIN_VALUE ≤ u) (h2 : u ≤ MAX_VALUE) :
    MIN_VALUE ≤ generate_random_value u ∧ generate_random_value u ≤ MAX_VALUE ∧
    ∃ n : ℤ, generate_random_value u = (n : ℚ) / 10 ^ 13 := by
  have hmin : MIN_VALUE = ((209 * 10 ^ 12 : ℤ) : ℚ) / 10 ^ 13 := by
    rw [MIN_VALUE, Rat.mkRat_eq_div]
    norm_num
  have hmax : MAX_VALUE = ((221 * 10 ^ 12 : ℤ) : ℚ) / 10 ^ 13 := by
    rw [MAX_VALUE, Rat.mkRat_eq_div]
    norm_num
  have hpow : (0 : ℚ) < 10 ^ 13 := by positivity
  have e1 : ((209 * 10 ^ 12 : ℤ) : ℚ) ≤ u * 10 ^ 13 := by
    rw [hmin] at h1
    exact (div_le_iff₀ hpow).mp h1
  have e2 : u * 10 ^ 13 ≤ ((221 * 10 ^ 12 : ℤ) : ℚ) := by
    rw [hmax] at h2
    exact (le_div_iff₀ hpow).mp h2
  have g1 : (209 * 10 ^ 12 : ℤ) ≤ roundHalfEven (u * 10 ^ 13) :=
    roundHalfEven_ge _ _ e1
  have g2 : roundHalfEven (u * 10 ^ 13) ≤ (221 * 10 ^ 12 : ℤ) :=
    roundHalfEven_le _ _ e2
  refine ⟨?_, ?_, ⟨roundHalfEven (u * 10 ^ 13), rfl⟩⟩
  · rw [hmin]
    show ((209 * 10 ^ 12 : ℤ) : ℚ) / 10 ^ 13 ≤ (roundHalfEven (u * 10 ^ 13) : ℚ) / 10 ^ 13
    apply div_le_div_of_nonneg_right ?_ hpow.le
    exact_mod_cast g1
  · rw [hmax]
    show (roundHalfEven (u * 10 ^ 13) : ℚ) / 10 ^ 13 ≤ ((221 * 10 ^ 12 : ℤ) : ℚ) / 10 ^ 13
    apply div_le_div_of_nonneg_right ?_ hpow.le
    exact_mod_cast g2

/-- Witness for C5 at the concrete draw u = 21. -/
theorem c5_generate_in_range_rounded_witness :
    (MIN_VALUE ≤ (21 : ℚ) ∧ (21 : ℚ) ≤ MAX_VALUE) ∧
    (MIN_VALUE ≤ generate_random_value 21 ∧ generate_random_value 21 ≤ MAX_VALUE ∧
      ∃ n : ℤ, generate_random_value 21 = (n : ℚ) / 10 ^ 13) :=
  ⟨⟨by decide, by decide⟩, c5_generate_in_range_rounded 21 (by decide) (by decide)⟩

/-- C8: backing up is idempotent — when a backup of the filename already
exists the call leaves the filesystem (in particular the backup's content)
unchanged, and a second backup of the same filename after a first one is a
no-op, whatever bytes the input file holds by then. -/
theorem c8_backup_idempotent (fs : FS) (p raw raw' : String) :
    ((fs BACKUP_DIR (basename p)).isSome = true → backup_file fs p raw = fs) ∧
    backup_file (backup_file fs p raw) p raw' = backup_file fs p raw := by
  constructor
  · intro h
    unfold backup_file
    simp [h]
  · cases hb : (fs BACKUP_DIR (basename p)).isSome with
    | true =>
      have e1 : backup_file fs p raw = fs := by
        unfold backup_file
        simp [hb]
      rw [e1]
      unfold backup_file
      simp [hb]
    | false =>
      have e1 : backup_file fs p raw =
          fs.update BACKUP_DIR (basename p) (FileData.bytes raw) := by
        unfold backup_file
        simp [hb]
      rw [e1]
      unfold backup_file
      simp [FS.update_same]

/-- Witness for C8: a filesystem already holding a backup of a.xlsx. -/
theorem c8_backup_idempotent_witness :
    backup_file fsWithBackup "src/xlsx/a.xlsx" "new" = fsWithBackup ∧
    backup_file (backup_file fsWithBackup "src/xlsx/a.xlsx" "new") "src/xlsx/a.xlsx" "new2" =
      backup_file fsWithBackup "src/xlsx/a.xlsx" "new" :=
  ⟨(c8_backup_idempotent fsWithBackup "src/xlsx/a.xlsx" "new" "new2").1 (by decide),
    (c8_backup_idempotent fsWithBackup "src/xlsx/a.xlsx" "new" "new2").2⟩

/-- C10: in test mode process_excel_file is pure analysis — the filesystem is
returned unchanged (so no backup copy and no output file is created) and the
draw cursor is unchanged (no replacement value is ever generated, so the
in-memory table is never mutated); no exit path carries a written table. -/
theorem c10_test_mode_no_side_effects (g : ℕ → ℚ) (k : ℕ) (fs : FS)
    (p raw : String) (parsed : Option DataFrame) (w : Bool) :
    (process_excel_file g k fs p raw parsed w true).1 = fs ∧
    (process_excel_file g k fs p raw parsed w true).2.2 = k ∧
    outputOf (process_excel_file g k fs p raw parsed w true).2.1 = none := by
  unfold process_excel_file
  cases parsed with
  | none => exact ⟨rfl, rfl, rfl⟩
  | some df =>
    by_cases h : findColumns TARGET_COLUMNS df.columns = []
    · simp [h, outputOf]
    · simp [h, outputOf]

theorem findColumns_subset (ts cols : List String) : findColumns ts cols ⊆ cols := by
  induction ts with
  | nil => simp [findColumns]
  | cons t ts ih =>
    intro c hc
    unfold findColumns at hc
    rcases List.mem_append.mp hc with h | h
    · split at h
      · next hmem => rcases List.mem_singleton.mp h with rfl; assumption
      · exact (List.mem_filter.mp h).1
    · exact ih h

theorem findColumns_mem_exact (ts cols : List String) (t : String)
    (ht : t ∈ ts) (hc : t ∈ cols) : t ∈ findColumns ts cols := by
  induction ts with
  | nil => cases ht
  | cons t' ts ih =>
    unfold findColumns
    rcases List.mem_cons.mp ht with rfl | h
    · apply List.mem_append_left
      rw [if_pos hc]
      exact List.mem_singleton_self t
    · exact List.mem_append_right _ (ih h)

theorem findColumns_mem_fuzzy (ts cols : List String) (t c : String)
    (ht : t ∈ ts) (hna : t ∉ cols) (hc : c ∈ cols)
    (hm : matchesFuzzy t c = true) : c ∈ findColumns ts cols := by
  induction ts with
  | nil => cases ht
  | cons t' ts ih =>
    unfold findColumns
    rcases List.mem_cons.mp ht with rfl | h
    · apply List.mem_append_left
      rw [if_neg hna]
      exact List.mem_filter.mpr ⟨hc, hm⟩
    · exact List.mem_append_right _ (ih h)

/-- C4, amended: for every target spec, an exactly matching column is
included; when the exact name is absent, every column whose normalized name
contains the normalized spec name as a substring is included — in particular
every column differing from the spec only in spaces and letter case. (As
stated the claim also asserted such columns are ALWAYS matched; that fails
when the exact name is present, see the counterexample.) -/
theorem c4_column_resolution (ts cols : List String) (t c : String) (ht : t ∈ ts) :
    (t ∈ cols → t ∈ findColumns ts cols) ∧
    (t ∉ cols → c ∈ cols → matchesFuzzy t c = true → c ∈ findColumns ts cols) ∧
    (t ∉ cols → c ∈ cols → normName c = normName t → c ∈ findColumns ts cols) := by
  refine ⟨fun h => findColumns_mem_exact ts cols t ht h,
    fun hna hc hm => findColumns_mem_fuzzy ts cols t c ht hna hc hm,
    fun hna hc he => findColumns_mem_fuzzy ts cols t c ht hna hc ?_⟩
  unfold matchesFuzzy
  rw [he]
  exact decide_eq_true (List.infix_refl _)

/-- Counterexample to C4 as stated: a column differing from the spec
МЗ 1/60 only in letter case is NOT matched when a column with the exact
spec name is also present, because the fuzzy scan is skipped for that
spec. -/
theorem c4_cex :
    normName "мз 1/60" = normName "МЗ 1/60" ∧
    ("мз 1/60" ∈ ["МЗ 1/60", "мз 1/60"] ∧ "МЗ 1/60" ∈ TARGET_COLUMNS) ∧
    "мз 1/60" ∉ findColumns TARGET_COLUMNS ["МЗ 1/60", "мз 1/60"] := by
  decide

/-- Witness for C4: the space-padded column МЗ  1/60 is resolved by the
fuzzy scan when the exact name is absent. -/
theorem c4_w :
    ("МЗ 1/60" ∈ TARGET_COLUMNS ∧ "МЗ 1/60" ∉ ["x", " МЗ  1/60 "] ∧
      " МЗ  1/60 " ∈ ["x", " МЗ  1/60 "] ∧
      normName " МЗ  1/60 " = normName "МЗ 1/60") ∧
    " МЗ  1/60 " ∈ findColumns TARGET_COLUMNS ["x", " МЗ  1/60 "] :=
  ⟨⟨by decide, by decide, by decide, by decide⟩,
    (c4_column_resolution TARGET_COLUMNS ["x", " МЗ  1/60 "] "МЗ 1/60" " МЗ  1/60 " (by decide)).2.2
      (by decide) (by decide) (by decide)⟩

theorem cellEvolves_mono {g : ℕ → ℚ} {lo hi lo' hi' : ℕ} {a b : Cell}
    (h1 : lo' ≤ lo) (h2 : hi ≤ hi') (h : cellEvolves g lo hi a b) :
    cellEvolves g lo' hi' a b := by
  rcases h with ⟨hn, rfl⟩ | ⟨hn, j, hj1, hj2, rfl⟩
  · exact Or.inl ⟨hn, rfl⟩
  · exact Or.inr ⟨hn, j, le_trans h1 hj1, lt_of_lt_of_le hj2 h2, rfl⟩

theorem colEvolves_mono {g : ℕ → ℚ} {lo hi lo' hi' : ℕ} {as bs : List Cell}
    (h1 : lo' ≤ lo) (h2 : hi ≤ hi') (h : colEvolves g lo hi as bs) :
    colEvolves g lo' hi' as bs :=
  ⟨h.1, fun i ha hb => cellEvolves_mono h1 h2 (h.2 i ha hb)⟩

theorem cellEvolves_trans {g : ℕ → ℚ} {lo hi : ℕ} {a b c : Cell}
    (h1 : cellEvolves g lo hi a b) (h2 : cellEvolves g lo hi b c) :
    cellEvolves g lo hi a c := by
  rcases h1 with ⟨hn, rfl⟩ | ⟨hn, j, hj1, hj2, rfl⟩
  · exact h2
  · rcases h2 with ⟨hn2, rfl⟩ | ⟨hn2, j', hj1', hj2', rfl⟩
    · exact Or.inr ⟨hn, j, hj1, hj2, rfl⟩
    · exact Or.inr ⟨hn, j', hj1', hj2', rfl⟩

theorem colEvolves_trans {g : ℕ → ℚ} {lo hi : ℕ} {as bs cs : List Cell}
    (h1 : colEvolves g lo hi as bs) (h2 : colEvolves g lo hi bs cs) :
    colEvolves g lo hi as cs := by
  obtain ⟨hb1, he1⟩ := h1
  obtain ⟨hb2, he2⟩ := h2
  refine ⟨hb2.trans hb1, fun i ha hc => ?_⟩
  have hb : i < bs.length := by omega
  exact cellEvolves_trans (he1 i ha hb) (he2 i hb hc)

theorem numericCount_zero {cells : List Cell} (h : numericCount cells = 0) :
    ∀ a ∈ cells, cellIsNumeric a = false := by
  intro a ha
  unfold numericCount at h
  rw [List.length_eq_zero] at h
  have := List.filter_eq_nil_iff.mp h a ha
  simpa using this

theorem colEvolves_refl_of_no_numeric {g : ℕ → ℚ} {lo hi : ℕ} {as : List Cell}
    (h : ∀ a ∈ as, cellIsNumeric a = false) : colEvolves g lo hi as as :=
  ⟨rfl, fun i ha _ => Or.inl ⟨h _ (List.get_mem as i ha), rfl⟩⟩

theorem replaceNumeric_spec (g : ℕ → ℚ) :
    ∀ (cells : List Cell) (k : ℕ),
      colEvolves g k (k + numericCount cells) cells (replaceNumeric g k cells).1 ∧
      (replaceNumeric g k cells).2 = k + numericCount cells := by
  intro cells
  induction cells with
  | nil =>
    intro k
    refine ⟨⟨rfl, fun i ha _ => absurd ha (by simp)⟩, by simp [replaceNumeric, numericCount]⟩
  | cons c cs ih =>
    intro k
    by_cases hc : cellIsNumeric c = true
    · have e : replaceNumeric g k (c :: cs) =
          (Cell.num (generate_random_value (g k)) :: (replaceNumeric g (k + 1) cs).1,
            (replaceNumeric g (k + 1) cs).2) := by
        simp [replaceNumeric, hc]
      have hcnt : numericCount (c :: cs) = numericCount cs + 1 := by
        simp [numericCount, hc]
      obtain ⟨⟨hlen, hev⟩, hk⟩ := ih (k + 1)
      rw [e, hcnt]
      refine ⟨⟨by simpa using hlen, fun i ha hb => ?_⟩, by omega⟩
      cases i with
      | zero => exact Or.inr ⟨hc, k, le_refl k, by omega, rfl⟩
      | succ i =>
        have ha' : i < cs.length := by simpa using ha
        have hb' : i < (replaceNumeric g (k + 1) cs).1.length := by simpa using hb
        have := hev i ha' hb'
        simpa using cellEvolves_mono (by omega) (by omega) this
    · have hcf : cellIsNumeric c = false := by simpa using hc
      have e : replaceNumeric g k (c :: cs) =
          (c :: (replaceNumeric g k cs).1, (replaceNumeric g k cs).2) := by
        simp [replaceNumeric, hcf]
      have hcnt : numericCount (c :: cs) = numericCount cs := by
        simp [numericCount, hcf]
      obtain ⟨⟨hlen, hev⟩, hk⟩ := ih k
      rw [e, hcnt]
      refine ⟨⟨by simpa using hlen, fun i ha hb => ?_⟩, by omega⟩
      cases i with
      | zero => exact Or.inl ⟨hcf, rfl⟩
      | succ i =>
        have ha' : i < cs.length := by simpa using ha
        have hb' : i < (replaceNumeric g k cs).1.length := by simpa using hb
        simpa using hev i ha' hb'

theorem lookupCol_of_mem_nodup :
    ∀ (ps : List (String × List Cell)) (p : String × List Cell),
      (ps.map Prod.fst).Nodup → p ∈ ps → lookupCol ps p.1 = some p.2 := by
  intro ps
  induction ps with
  | nil => intro p _ hp; cases hp
  | cons q qs ih =>
    intro p hnd hp
    rw [List.map_cons, List.nodup_cons] at hnd
    obtain ⟨hq1, hq2⟩ := hnd
    unfold lookupCol
    rcases List.mem_cons.mp hp with rfl | hp'
    · rw [if_pos rfl]
    · have hq : q.1 ≠ p.1 := by
        intro he
        exact hq1 (he ▸ List.mem_map_of_mem Prod.fst hp')
      rw [if_neg hq]
      exact ih p hq2 hp'

theorem getCol_of_mem_nodup (df : DataFrame) (p : String × List Cell)
    (hnd : (df.cols.map Prod.fst).Nodup) (hp : p ∈ df.cols) :
    df.getCol p.1 = p.2 := by
  unfold DataFrame.getCol
  rw [lookupCol_of_mem_nodup df.cols p hnd hp]
  rfl

theorem setCol_rel (l : List (String × List Cell)) (c : String) (cells : List Cell) :
    List.Forall₂ (fun p q => q.1 = p.1 ∧ (p.1 ≠ c → q = p) ∧ (p.1 = c → q.2 = cells))
      l (l.map (fun p => if p.1 = c then (p.1, cells) else p)) := by
  induction l with
  | nil => exact List.Forall₂.nil
  | cons p ps ih =>
    rw [List.map_cons]
    refine List.Forall₂.cons ?_ ih
    by_cases hp : p.1 = c
    · rw [if_pos hp]
      exact ⟨rfl, fun h => absurd hp h, fun _ => rfl⟩
    · rw [if_neg hp]
      exact ⟨rfl, fun _ => rfl, fun h => absurd h hp⟩

theorem forall₂_imp_mem {α β : Type} {R S : α → β → Prop} :
    ∀ {l₁ : List α} {l₂ : List β}, List.Forall₂ R l₁ l₂ →
      (∀ a b, a ∈ l₁ → R a b → S a b) → List.Forall₂ S l₁ l₂ := by
  intro l₁ l₂ h
  induction h with
  | nil => intro _; exact List.Forall₂.nil
  | cons hab hrest ih =>
    intro himp
    exact List.Forall₂.cons (himp _ _ (List.mem_cons_self _ _) hab)
      (ih fun a b ha hr => himp a b (List.mem_cons_of_mem _ ha) hr)

theorem forall₂_comp {α β γ : Type} {R : α → β → Prop} {S : β → γ → Prop}
    {T : α → γ → Prop} (h : ∀ a b c, R a b → S b c → T a c) :
    ∀ {l₁ : List α} {l₂ : List β} {l₃ : List γ},
      List.Forall₂ R l₁ l₂ → List.Forall₂ S l₂ l₃ → List.Forall₂ T l₁ l₃ := by
  intro l₁ l₂ l₃ h12
  induction h12 generalizing l₃ with
  | nil =>
    intro h23
    cases h23
    exact List.Forall₂.nil
  | cons hab hrest ih =>
    intro h23
    cases h23 with
    | cons hbc h23' => exact List.Forall₂.cons (h _ _ _ hab hbc) (ih h23')

theorem forall₂_fst_eq :
    ∀ {l₁ l₂ : List (String × List Cell)},
      List.Forall₂ (fun p q => q.1 = p.1) l₁ l₂ →
      l₂.map Prod.fst = l₁.map Prod.fst := by
  intro l₁ l₂ h
  induction h with
  | nil => rfl
  | cons hab _ ih => simp [hab, ih]

theorem setCol_map_fst (df : DataFrame) (c : String) (cells : List Cell) :
    (df.setCol c cells).cols.map Prod.fst = df.cols.map Prod.fst :=
  forall₂_fst_eq ((setCol_rel df.cols c cells).imp fun _ _ hpq => hpq.1)

theorem TableRel_columns {g : ℕ → ℚ} {lo hi : ℕ} {found : List String}
    {A B : DataFrame} (h : TableRel g lo hi found A B) : B.columns = A.columns :=
  forall₂_fst_eq (h.imp fun _ _ hpq => hpq.1)

theorem applyColumns_rel (g : ℕ → ℚ) :
    ∀ (found : List String) (df : DataFrame) (k : ℕ) (ch : Bool),
      (df.cols.map Prod.fst).Nodup →
      k ≤ (applyColumns g found df k ch).2.1 ∧
      TableRel g k (applyColumns g found df k ch).2.1 found df
        (applyColumns g found df k ch).1 := by
  intro found
  induction found with
  | nil =>
    intro df k ch hnd
    have e : applyColumns g [] df k ch = (df, k, ch) := rfl
    rw [e]
    refine ⟨le_refl k, List.forall₂_same.mpr fun p hp =>
      ⟨rfl, fun _ => rfl, fun h => absurd h (List.not_mem_nil _)⟩⟩
  | cons c cs ih =>
    intro df k ch hnd
    by_cases hmem : c ∈ df.columns
    · by_cases hcnt : 0 < numericCount (df.getCol c)
      · have e : applyColumns g (c :: cs) df k ch =
            applyColumns g cs (df.setCol c (replaceNumeric g k (df.getCol c)).1)
              (replaceNumeric g k (df.getCol c)).2 true := by
          simp [applyColumns, hmem, hcnt]
        rw [e]
        obtain ⟨hev, hk2⟩ := replaceNumeric_spec g (df.getCol c) k
        have hnd₁ : (((df.setCol c (replaceNumeric g k (df.getCol c)).1).cols.map
            Prod.fst)).Nodup := by
          rw [setCol_map_fst]
          exact hnd
        obtain ⟨hk', hrel'⟩ :=
          ih (df.setCol c (replaceNumeric g k (df.getCol c)).1)
            (replaceNumeric g k (df.getCol c)).2 true hnd₁
        have hk1 : k ≤ (replaceNumeric g k (df.getCol c)).2 := by omega
        refine ⟨le_trans hk1 hk', ?_⟩
        unfold TableRel at hrel' ⊢
        have hstep : List.Forall₂
            (fun p m => m.1 = p.1 ∧ (p.1 ≠ c → m = p) ∧
              (p.1 = c → colEvolves g k (replaceNumeric g k (df.getCol c)).2 p.2 m.2))
            df.cols (df.setCol c (replaceNumeric g k (df.getCol c)).1).cols := by
          refine forall₂_imp_mem (setCol_rel df.cols c (replaceNumeric g k (df.getCol c)).1) ?_
          intro p m hp hR
          refine ⟨hR.1, hR.2.1, fun hpc => ?_⟩
          have hpL : p.2 = df.getCol c := by
            rw [← hpc]
            exact (getCol_of_mem_nodup df p hnd hp).symm
          rw [hR.2.2 hpc, hpL, hk2]
          exact hev
        refine forall₂_comp ?_ hstep hrel'
        intro p m q hRm hRq
        obtain ⟨hm1, hm2, hm3⟩ := hRm
        obtain ⟨hq1, hq2, hq3⟩ := hRq
        refine ⟨hq1.trans hm1, ?_, ?_⟩
        · intro hni
          have hnc : p.1 ≠ c := fun he => hni (he ▸ List.mem_cons_self _ _)
          have hncs : p.1 ∉ cs := fun hin => hni (List.mem_cons_of_mem _ hin)
          have hmp : m = p := hm2 hnc
          have hqm : q = m := hq2 (by rw [hm1]; exact hncs)
          rw [hqm, hmp]
        · intro hin
          by_cases hpc : p.1 = c
          · have hce := hm3 hpc
            by_cases hccs : m.1 ∈ cs
            · exact colEvolves_trans (colEvolves_mono (le_refl k) hk' hce)
                (colEvolves_mono hk1 (le_refl _) (hq3 hccs))
            · have hqm := hq2 hccs
              rw [hqm]
              exact colEvolves_mono (le_refl k) hk' hce
          · have hcs : p.1 ∈ cs := by
              rcases List.mem_cons.mp hin with he | h
              · exact absurd he hpc
              · exact h
            have hmp : m = p := hm2 hpc
            have hmcs : m.1 ∈ cs := by rw [hm1]; exact hcs
            have hce2 := hq3 hmcs
            rw [hmp] at hce2
            exact colEvolves_mono hk1 (le_refl _) hce2
      · have e : applyColumns g (c :: cs) df k ch = applyColumns g cs df k ch := by
          simp [applyColumns, hmem, hcnt]
        rw [e]
        obtain ⟨hk', hrel'⟩ := ih df k ch hnd
        refine ⟨hk', ?_⟩
        unfold TableRel at hrel' ⊢
        refine forall₂_imp_mem hrel' ?_
        intro p q hp hR
        refine ⟨hR.1, fun hni => hR.2.1 fun hin => hni (List.mem_cons_of_mem _ hin),
          fun hin => ?_⟩
        by_cases hpc : p.1 = c
        · by_cases hpcs : p.1 ∈ cs
          · exact hR.2.2 hpcs
          · have hqp := hR.2.1 hpcs
            rw [hqp]
            apply colEvolves_refl_of_no_numeric
            have hgc : df.getCol c = p.2 := by
              rw [← hpc]
              exact getCol_of_mem_nodup df p hnd hp
            have hz : numericCount p.2 = 0 := by
              rw [← hgc]
              omega
            exact numericCount_zero hz
        · have hpcs : p.1 ∈ cs := by
            rcases List.mem_cons.mp hin with he | h
            · exact absurd he hpc
            · exact h
          exact hR.2.2 hpcs
    · have e : applyColumns g (c :: cs) df k ch = applyColumns g cs df k ch := by
        simp [applyColumns, hmem]
      rw [e]
      obtain ⟨hk', hrel'⟩ := ih df k ch hnd
      refine ⟨hk', ?_⟩
      unfold TableRel at hrel' ⊢
      refine forall₂_imp_mem hrel' ?_
      intro p q hp hR
      refine ⟨hR.1, fun hni => hR.2.1 fun hin => hni (List.mem_cons_of_mem _ hin),
        fun hin => ?_⟩
      by_cases hpc : p.1 = c
      · exact absurd (hpc ▸ List.mem_map_of_mem Prod.fst hp) hmem
      · have hpcs : p.1 ∈ cs := by
          rcases List.mem_cons.mp hin with he | h
          · exact absurd he hpc
          · exact h
        exact hR.2.2 hpcs

theorem process_apply_written (g : ℕ → ℚ) (k : ℕ) (fs : FS) (p raw : String)
    (df df' : DataFrame) (w : Bool)
    (hwr : (process_excel_file g k fs p raw (some df) w false).2.1 =
      ProcResult.written df') :
    df' = (applyColumns g (findColumns TARGET_COLUMNS df.columns) df k false).1 ∧
    (process_excel_file g k fs p raw (some df) w false).2.2 =
      (applyColumns g (findColumns TARGET_COLUMNS df.columns) df k false).2.1 := by
  unfold process_excel_file at hwr ⊢
  by_cases hf : findColumns TARGET_COLUMNS df.columns = []
  · simp [hf] at hwr
  · by_cases hch : (applyColumns g (findColumns TARGET_COLUMNS df.columns) df k false).2.2 = false
    · simp [hf, hch] at hwr
    · rw [Bool.not_eq_false] at hch
      cases w with
      | false => simp [hf, hch] at hwr
      | true =>
        simp only [hf, hch, if_false, if_true, Bool.false_eq_true, ite_false, ite_true] at hwr ⊢
        exact ⟨(ProcResult.written.injEq _ _ ▸ hwr).symm, rfl⟩

/-- C1: in apply mode, for every target column resolved in a file that gets
written, exactly the cells whose existing value parses as numeric are
overwritten with freshly generated values (one fresh draw per cell), and
every cell whose existing value is non-numeric or empty is returned equal to
its input value. -/
theorem c1_numeric_cells_replaced (g : ℕ → ℚ) (k : ℕ) (fs : FS) (p raw : String)
    (df df' : DataFrame) (w : Bool)
    (hnd : (df.cols.map Prod.fst).Nodup)
    (hwr : (process_excel_file g k fs p raw (some df) w false).2.1 =
      ProcResult.written df') :
    List.Forall₂ (fun pc qc : String × List Cell =>
      qc.1 = pc.1 ∧
      (pc.1 ∈ findColumns TARGET_COLUMNS df.columns →
        qc.2.length = pc.2.length ∧
        ∀ i (hi : i < pc.2.length) (hi' : i < qc.2.length),
          (cellIsNumeric (pc.2.get ⟨i, hi⟩) = false →
            qc.2.get ⟨i, hi'⟩ = pc.2.get ⟨i, hi⟩) ∧
          (cellIsNumeric (pc.2.get ⟨i, hi⟩) = true →
            ∃ j, k ≤ j ∧
              j < (process_excel_file g k fs p raw (some df) w false).2.2 ∧
              qc.2.get ⟨i, hi'⟩ = Cell.num (generate_random_value (g j)))))
      df.cols df'.cols := by
  obtain ⟨hdf', hk'⟩ := process_apply_written g k fs p raw df df' w hwr
  obtain ⟨_, hrel⟩ :=
    applyColumns_rel g (findColumns TARGET_COLUMNS df.columns) df k false hnd
  rw [hdf', hk']
  unfold TableRel at hrel
  refine hrel.imp ?_
  intro pc qc hR
  refine ⟨hR.1, fun hin => ?_⟩
  obtain ⟨hlen, hev⟩ := hR.2.2 hin
  refine ⟨hlen, fun i hi hi' => ?_⟩
  rcases hev i hi hi' with ⟨hn, heq⟩ | ⟨hn, j, hj1, hj2, heq⟩
  · exact ⟨fun _ => heq, fun ht => by rw [hn] at ht; exact Bool.noConfusion ht⟩
  · exact ⟨fun hf => by rw [hf] at hn; exact Bool.noConfusion hn,
      fun _ => ⟨j, hj1, hj2, heq⟩⟩

/-- C6: in apply mode, the written table has the same column labels in the
same order as the input, every column keeps its row count, and every column
whose label is not in the resolved target set is returned identical to its
input. -/
theorem c6_untargeted_columns_frame (g : ℕ → ℚ) (k : ℕ) (fs : FS) (p raw : String)
    (df df' : DataFrame) (w : Bool)
    (hnd : (df.cols.map Prod.fst).Nodup)
    (hwr : (process_excel_file g k fs p raw (some df) w false).2.1 =
      ProcResult.written df') :
    df'.columns = df.columns ∧
    List.Forall₂ (fun pc qc : String × List Cell =>
      qc.2.length = pc.2.length ∧
      (pc.1 ∉ findColumns TARGET_COLUMNS df.columns → qc = pc)) df.cols df'.cols := by
  obtain ⟨hdf', hk'⟩ := process_apply_written g k fs p raw df df' w hwr
  obtain ⟨_, hrel⟩ :=
    applyColumns_rel g (findColumns TARGET_COLUMNS df.columns) df k false hnd
  rw [hdf']
  refine ⟨TableRel_columns hrel, ?_⟩
  unfold TableRel at hrel
  refine hrel.imp ?_
  intro pc qc hR
  refine ⟨?_, hR.2.1⟩
  by_cases hin : pc.1 ∈ findColumns TARGET_COLUMNS df.columns
  · exact (hR.2.2 hin).1
  · rw [hR.2.1 hin]

theorem applyColumns_no_numeric (g : ℕ → ℚ) :
    ∀ (found : List String) (df : DataFrame) (k : ℕ) (ch : Bool),
      (∀ c ∈ found, numericCount (df.getCol c) = 0) →
      applyColumns g found df k ch = (df, k, ch) := by
  intro found
  induction found with
  | nil => intro df k ch _; rfl
  | cons c cs ih =>
    intro df k ch h
    have hc : numericCount (df.getCol c) = 0 := h c (List.mem_cons_self _ _)
    have ht : ∀ c' ∈ cs, numericCount (df.getCol c') = 0 :=
      fun c' hc' => h c' (List.mem_cons_of_mem _ hc')
    by_cases hmem : c ∈ df.columns
    · have e : applyColumns g (c :: cs) df k ch = applyColumns g cs df k ch := by
        simp [applyColumns, hmem, hc]
      rw [e]
      exact ih df k ch ht
    · have e : applyColumns g (c :: cs) df k ch = applyColumns g cs df k ch := by
        simp [applyColumns, hmem]
      rw [e]
      exact ih df k ch ht

theorem lookupCol_mem :
    ∀ (ps : List (String × List Cell)) (c : String) (cells : List Cell),
      lookupCol ps c = some cells → (c, cells) ∈ ps := by
  intro ps
  induction ps with
  | nil => intro c cells h; cases h
  | cons q qs ih =>
    intro c cells h
    unfold lookupCol at h
    by_cases hq : q.1 = c
    · rw [if_pos hq] at h
      have : cells = q.2 := (Option.some.injEq _ _ ▸ h).symm
      rw [this, ← hq]
      exact List.mem_cons_self _ _
    · rw [if_neg hq] at h
      exact List.mem_cons_of_mem _ (ih c cells h)

theorem numericCount_getCol_zero (df : DataFrame) (found : List String) (c : String)
    (hz : ∀ pc ∈ df.cols, pc.1 ∈ found → ∀ a ∈ pc.2, cellIsNumeric a = false)
    (hc : c ∈ found) : numericCount (df.getCol c) = 0 := by
  unfold DataFrame.getCol
  cases hlk : lookupCol df.cols c with
  | none => rfl
  | some cells =>
    have hmem := lookupCol_mem df.cols c cells hlk
    have hall := hz (c, cells) hmem hc
    simp only [Option.getD_some]
    unfold numericCount
    rw [List.length_eq_zero, List.filter_eq_nil_iff]
    intro a ha
    simp [hall a ha]

theorem backup_file_preserves (fs : FS) (p raw : String) (d n : String)
    (hd : d ≠ BACKUP_DIR) : backup_file fs p raw d n = fs d n := by
  unfold backup_file
  split
  · rfl
  · exact FS.update_other fs BACKUP_DIR (basename p) d n (FileData.bytes raw)
      fun hh => hd hh.1

theorem process_no_columns (g : ℕ → ℚ) (k : ℕ) (fs : FS) (p raw : String)
    (df : DataFrame) (w : Bool)
    (hf : findColumns TARGET_COLUMNS df.columns = []) :
    process_excel_file g k fs p raw (some df) w false =
      (backup_file fs p raw, ProcResult.noColumnsFound, k) := by
  unfold process_excel_file
  simp [hf]

theorem process_no_changes (g : ℕ → ℚ) (k : ℕ) (fs : FS) (p raw : String)
    (df : DataFrame) (w : Bool)
    (hf : findColumns TARGET_COLUMNS df.columns ≠ [])
    (hz : ∀ c ∈ findColumns TARGET_COLUMNS df.columns,
      numericCount (df.getCol c) = 0) :
    process_excel_file g k fs p raw (some df) w false =
      (backup_file fs p raw, ProcResult.noChanges, k) := by
  unfold process_excel_file
  have e := applyColumns_no_numeric g (findColumns TARGET_COLUMNS df.columns) df k false hz
  simp [hf, e]

theorem process_snd_fs_indep (g : ℕ → ℚ) (k : ℕ) (fs₁ fs₂ : FS) (p raw : String)
    (parsed : Option DataFrame) (w tm : Bool) :
    (process_excel_file g k fs₁ p raw parsed w tm).2 =
    (process_excel_file g k fs₂ p raw parsed w tm).2 := by
  unfold process_excel_file
  cases parsed with
  | none => rfl
  | some df =>
    by_cases hf : findColumns TARGET_COLUMNS df.columns = []
    · simp [hf]
    · cases tm with
      | true => simp [hf]
      | false =>
        by_cases hch : (applyColumns g (findColumns TARGET_COLUMNS df.columns) df k false).2.2 = false
        · simp [hf, hch]
        · rw [Bool.not_eq_false] at hch
          cases w with
          | false => simp [hf, hch]
          | true => simp [hf, hch]

theorem runBatch_results_fs_indep (g : ℕ → ℚ) :
    ∀ (files : List BatchFile) (k : ℕ) (fs₁ fs₂ : FS),
      (runBatch g k fs₁ files).2.2 = (runBatch g k fs₂ files).2.2 := by
  intro files
  induction files with
  | nil => intro k fs₁ fs₂; rfl
  | cons f more ih =>
    intro k fs₁ fs₂
    have h2 := process_snd_fs_indep g k fs₁ fs₂ f.path f.raw f.parsed f.writeOk false
    unfold runBatch
    dsimp only
    rw [congrArg Prod.fst h2, congrArg Prod.snd h2]
    exact congrArg _ (ih _ _ _)

theorem process_apply_fs_away_from_output (g : ℕ → ℚ) (k : ℕ) (fs : FS)
    (p raw : String) (parsed : Option DataFrame) (w : Bool) (d n : String)
    (hd : d ≠ OUTPUT_DIR) :
    (process_excel_file g k fs p raw parsed w false).1 d n =
      backup_file fs p raw d n := by
  unfold process_excel_file
  cases parsed with
  | none => rfl
  | some df =>
    by_cases hf : findColumns TARGET_COLUMNS df.columns = []
    · simp [hf]
    · by_cases hch : (applyColumns g (findColumns TARGET_COLUMNS df.columns) df k false).2.2 = false
      · simp [hf, hch]
      · rw [Bool.not_eq_false] at hch
        cases w with
        | false => simp [hf, hch]
        | true =>
          simp only [hf, hch, if_false, if_true, Bool.false_eq_true, ite_false, ite_true]
          exact FS.update_other _ _ _ _ _ _ fun hh => hd hh.1

theorem process_preserves_input (g : ℕ → ℚ) (k : ℕ) (fs : FS) (p raw : String)
    (parsed : Option DataFrame) (w tm : Bool) (n : String) :
    (process_excel_file g k fs p raw parsed w tm).1 INPUT_DIR n = fs INPUT_DIR n := by
  cases tm with
  | true =>
    unfold process_excel_file
    cases parsed with
    | none => rfl
    | some df =>
      by_cases hf : findColumns TARGET_COLUMNS df.columns = []
      · simp [hf]
      · simp [hf]
  | false =>
    have hb : backup_file fs p raw INPUT_DIR n = fs INPUT_DIR n :=
      backup_file_preserves fs p raw INPUT_DIR n (by decide)
    rw [process_apply_fs_away_from_output g k fs p raw parsed w INPUT_DIR n (by decide)]
    exact hb

theorem runBatch_preserves_input (g : ℕ → ℚ) :
    ∀ (files : List BatchFile) (k : ℕ) (fs : FS) (n : String),
      (runBatch g k fs files).1 INPUT_DIR n = fs INPUT_DIR n := by
  intro files
  induction files with
  | nil => intro k fs n; rfl
  | cons f more ih =>
    intro k fs n
    unfold runBatch
    dsimp only
    rw [ih _ _ n]
    exact process_preserves_input g k fs f.path f.raw f.parsed f.writeOk false n

theorem process_write_error (g : ℕ → ℚ) (k : ℕ) (fs : FS) (p raw : String)
    (parsed : Option DataFrame) :
    outputOf (process_excel_file g k fs p raw parsed false false).2.1 = none ∧
    retBool (process_excel_file g k fs p raw parsed false false).2.1 = false := by
  unfold process_excel_file
  cases parsed with
  | none => exact ⟨rfl, rfl⟩
  | some df =>
    by_cases hf : findColumns TARGET_COLUMNS df.columns = []
    · simp [hf, outputOf, retBool]
    · by_cases hch : (applyColumns g (findColumns TARGET_COLUMNS df.columns) df k false).2.2 = false
      · simp [hf, hch, outputOf, retBool]
      · rw [Bool.not_eq_false] at hch
        simp [hf, hch, outputOf, retBool]

/-- C2, amended: when the resolved column set is non-empty but no cell in any
resolved column parses as numeric, process_excel_file takes the no-changes
exit — it logs the file as unchanged and produces no output file — but the
value it returns is False, the same value a failure returns, and the batch
tally of main counts the file among the failures; the outcome is distinct
from a failure only in the log message, not in the returned outcome. -/
theorem c2_no_numeric_data_unchanged (g : ℕ → ℚ) (k : ℕ) (fs : FS) (p raw : String)
    (df : DataFrame) (w : Bool)
    (hf : findColumns TARGET_COLUMNS df.columns ≠ [])
    (hz : ∀ pc ∈ df.cols, pc.1 ∈ findColumns TARGET_COLUMNS df.columns →
      ∀ a ∈ pc.2, cellIsNumeric a = false) :
    process_excel_file g k fs p raw (some df) w false =
      (backup_file fs p raw, ProcResult.noChanges, k) ∧
    (∀ n, (process_excel_file g k fs p raw (some df) w false).1 OUTPUT_DIR n =
      fs OUTPUT_DIR n) ∧
    retBool ProcResult.noChanges = false ∧
    failedCount [ProcResult.noChanges] = 1 := by
  have hz' : ∀ c ∈ findColumns TARGET_COLUMNS df.columns,
      numericCount (df.getCol c) = 0 :=
    fun c hc => numericCount_getCol_zero df _ c hz hc
  have he := process_no_changes g k fs p raw df w hf hz'
  refine ⟨he, fun n => ?_, rfl, rfl⟩
  rw [he]
  exact backup_file_preserves fs p raw OUTPUT_DIR n (by decide)

/-- Counterexample to C2 as stated: on a file whose target column holds only
text, the returned outcome is the same False that a read failure returns, and
the batch counter of main reports the file as failed — the outcome is not
distinct from a failure outcome. -/
theorem c2_cex :
    (process_excel_file gConst 0 emptyFS "src/xlsx/c2.xlsx" "B" (some dfC2) true false).2.1 =
      ProcResult.noChanges ∧
    retBool (process_excel_file gConst 0 emptyFS "src/xlsx/c2.xlsx" "B"
        (some dfC2) true false).2.1 =
      retBool (process_excel_file gConst 0 emptyFS "src/xlsx/err.xlsx" "B"
        none true false).2.1 ∧
    failedCount [(process_excel_file gConst 0 emptyFS "src/xlsx/c2.xlsx" "B"
      (some dfC2) true false).2.1] = 1 := by
  refine ⟨rfl, rfl, rfl⟩

/-- Witness for C2 at a concrete all-text file. -/
theorem c2_w :
    (findColumns TARGET_COLUMNS dfC2.columns ≠ [] ∧
      (∀ pc ∈ dfC2.cols, pc.1 ∈ findColumns TARGET_COLUMNS dfC2.columns →
        ∀ a ∈ pc.2, cellIsNumeric a = false)) ∧
    (process_excel_file gConst 0 emptyFS "src/xlsx/c2.xlsx" "B" (some dfC2) true false =
      (backup_file emptyFS "src/xlsx/c2.xlsx" "B", ProcResult.noChanges, 0) ∧
    (∀ n, (process_excel_file gConst 0 emptyFS "src/xlsx/c2.xlsx" "B"
      (some dfC2) true false).1 OUTPUT_DIR n = emptyFS OUTPUT_DIR n) ∧
    retBool ProcResult.noChanges = false ∧
    failedCount [ProcResult.noChanges] = 1) :=
  ⟨⟨by decide, by decide⟩,
    c2_no_numeric_data_unchanged gConst 0 emptyFS "src/xlsx/c2.xlsx" "B" dfC2 true
      (by decide) (by decide)⟩

/-- C3, amended: when no target column resolves, process_excel_file returns
the no-columns-found exit without producing an output file, and the batch
loop continues with the remaining files unaffected; however the returned
value is False — the same value a failure returns — so main counts the file
in the failed tally it prints as the error total. -/
theorem c3_no_columns_found (g : ℕ → ℚ) (k : ℕ) (fs : FS) (p raw : String)
    (df : DataFrame) (w : Bool) (rest : List BatchFile)
    (hf : findColumns TARGET_COLUMNS df.columns = []) :
    process_excel_file g k fs p raw (some df) w false =
      (backup_file fs p raw, ProcResult.noColumnsFound, k) ∧
    (∀ n, (process_excel_file g k fs p raw (some df) w false).1 OUTPUT_DIR n =
      fs OUTPUT_DIR n) ∧
    (runBatch g k fs (⟨p, raw, some df, w⟩ :: rest)).2.2 =
      ProcResult.noColumnsFound :: (runBatch g k fs rest).2.2 ∧
    retBool ProcResult.noColumnsFound = false := by
  have he := process_no_columns g k fs p raw df w hf
  refine ⟨he, fun n => ?_, ?_, rfl⟩
  · rw [he]
    exact backup_file_preserves fs p raw OUTPUT_DIR n (by decide)
  · simp only [runBatch, he]
    exact congrArg _ (runBatch_results_fs_indep g rest k _ _)

/-- Counterexample to C3 as stated: a file with no target columns is counted
by main's failed counter — the one printed as the error total — exactly like
a read failure, so the outcome is reported as an error at the batch level. -/
theorem c3_cex :
    (process_excel_file gConst 0 emptyFS "src/xlsx/c3.xlsx" "B" (some dfC3) true false).2.1 =
      ProcResult.noColumnsFound ∧
    retBool (process_excel_file gConst 0 emptyFS "src/xlsx/c3.xlsx" "B"
        (some dfC3) true false).2.1 =
      retBool (process_excel_file gConst 0 emptyFS "src/xlsx/err.xlsx" "B"
        none true false).2.1 ∧
    failedCount (runBatch gConst 0 emptyFS
      [⟨"src/xlsx/c3.xlsx", "B", some dfC3, true⟩]).2.2 = 1 := by
  refine ⟨rfl, rfl, rfl⟩

/-- Witness for C3 at a concrete file without target columns. -/
theorem c3_w :
    findColumns TARGET_COLUMNS dfC3.columns = [] ∧
    (process_excel_file gConst 0 emptyFS "src/xlsx/c3.xlsx" "B" (some dfC3) true false =
      (backup_file emptyFS "src/xlsx/c3.xlsx" "B", ProcResult.noColumnsFound, 0) ∧
    (∀ n, (process_excel_file gConst 0 emptyFS "src/xlsx/c3.xlsx" "B"
      (some dfC3) true false).1 OUTPUT_DIR n = emptyFS OUTPUT_DIR n) ∧
    (runBatch gConst 0 emptyFS (⟨"src/xlsx/c3.xlsx", "B", some dfC3, true⟩ :: [])).2.2 =
      ProcResult.noColumnsFound :: (runBatch gConst 0 emptyFS []).2.2 ∧
    retBool ProcResult.noColumnsFound = false) :=
  ⟨by decide,
    c3_no_columns_found gConst 0 emptyFS "src/xlsx/c3.xlsx" "B" dfC3 true []
      (by decide)⟩

/-- C7: a read/parse error (parsed = none) is caught inside
process_excel_file and becomes the failed outcome False for that file; a
write error (writeOk = false) likewise produces no output file and the
failed outcome; the batch continues with the remaining files, whose results
are exactly those of running the batch without the failed file; and no
processing ever touches the input directory. -/
theorem c7_error_isolated (g : ℕ → ℚ) (k : ℕ) (fs : FS) (p raw : String)
    (w : Bool) (rest : List BatchFile) (parsed : Option DataFrame) (n : String) :
    process_excel_file g k fs p raw none w false =
      (backup_file fs p raw, ProcResult.failure, k) ∧
    retBool ProcResult.failure = false ∧
    (runBatch g k fs (⟨p, raw, none, w⟩ :: rest)).2.2 =
      ProcResult.failure :: (runBatch g k fs rest).2.2 ∧
    outputOf (process_excel_file g k fs p raw parsed false false).2.1 = none ∧
    retBool (process_excel_file g k fs p raw parsed false false).2.1 = false ∧
    (∀ (files : List BatchFile) (k₀ : ℕ),
      (runBatch g k₀ fs files).1 INPUT_DIR n = fs INPUT_DIR n) := by
  obtain ⟨ho, hr⟩ := process_write_error g k fs p raw parsed
  refine ⟨rfl, rfl, ?_, ho, hr, fun files k₀ => runBatch_preserves_input g files k₀ fs n⟩
  show ProcResult.failure :: (runBatch g k (backup_file fs p raw) rest).2.2 =
    ProcResult.failure :: (runBatch g k fs rest).2.2
  exact congrArg _ (runBatch_results_fs_indep g rest k _ _)

/-- C9: in apply mode the backup copy is made before the spreadsheet is read,
so whenever no backup of the filename existed, the backup file holding the
input bytes exists after process_excel_file returns, for every outcome —
parse failure, no target columns, no numeric data, write failure or
success. -/
theorem c9_backup_before_read (g : ℕ → ℚ) (k : ℕ) (fs : FS)
    (p raw : String) (parsed : Option DataFrame) (w : Bool)
    (hnb : fs BACKUP_DIR (basename p) = none) :
    (process_excel_file g k fs p raw parsed w false).1 BACKUP_DIR (basename p) =
      some (FileData.bytes raw) := by
  have hb : backup_file fs p raw BACKUP_DIR (basename p) = some (FileData.bytes raw) := by
    unfold backup_file
    rw [hnb]
    simp [FS.update_same]
  rw [process_apply_fs_away_from_output g k fs p raw parsed w BACKUP_DIR (basename p)
    (by decide)]
  exact hb

/-- Witness for C9: a fresh filesystem and a file whose read fails. -/
theorem c9_backup_before_read_witness :
    emptyFS BACKUP_DIR (basename "src/xlsx/c9.xlsx") = none ∧
    (process_excel_file gConst 0 emptyFS "src/xlsx/c9.xlsx" "R9" none true false).1
      BACKUP_DIR (basename "src/xlsx/c9.xlsx") = some (FileData.bytes "R9") :=
  ⟨rfl, c9_backup_before_read gConst 0 emptyFS "src/xlsx/c9.xlsx" "R9" none true rfl⟩

/-- Witness for C1: a concrete apply-mode run on a file with one numeric and
one text cell in a target column. -/
theorem c1_w :
    ((dfC1.cols.map Prod.fst).Nodup ∧
      (process_excel_file gConst 0 emptyFS "src/xlsx/c1.xlsx" "B"
        (some dfC1) true false).2.1 = ProcResult.written dfC1out) ∧
    List.Forall₂ (fun pc qc : String × List Cell =>
      qc.1 = pc.1 ∧
      (pc.1 ∈ findColumns TARGET_COLUMNS dfC1.columns →
        qc.2.length = pc.2.length ∧
        ∀ i (hi : i < pc.2.length) (hi' : i < qc.2.length),
          (cellIsNumeric (pc.2.get ⟨i, hi⟩) = false →
            qc.2.get ⟨i, hi'⟩ = pc.2.get ⟨i, hi⟩) ∧
          (cellIsNumeric (pc.2.get ⟨i, hi⟩) = true →
            ∃ j, 0 ≤ j ∧
              j < (process_excel_file gConst 0 emptyFS "src/xlsx/c1.xlsx" "B"
                (some dfC1) true false).2.2 ∧
              qc.2.get ⟨i, hi'⟩ = Cell.num (generate_random_value (gConst j)))))
      dfC1.cols dfC1out.cols :=
  ⟨⟨by decide, by rfl⟩,
    c1_numeric_cells_replaced gConst 0 emptyFS "src/xlsx/c1.xlsx" "B" dfC1 dfC1out true
      (by decide) (by rfl)⟩

/-- Witness for C6: the same concrete run, looking at the untargeted column
and the table frame. -/
theorem c6_w :
    ((dfC1.cols.map Prod.fst).Nodup ∧
      (process_excel_file gConst 0 emptyFS "src/xlsx/c1.xlsx" "B"
        (some dfC1) true false).2.1 = ProcResult.written dfC1out) ∧
    (dfC1out.columns = dfC1.columns ∧
    List.Forall₂ (fun pc qc : String × List Cell =>
      qc.2.length = pc.2.length ∧
      (pc.1 ∉ findColumns TARGET_COLUMNS dfC1.columns → qc = pc))
      dfC1.cols dfC1out.cols) :=
  ⟨⟨by decide, by rfl⟩,
    c6_untargeted_columns_frame gConst 0 emptyFS "src/xlsx/c1.xlsx" "B" dfC1 dfC1out true
      (by decide) (by rfl)⟩
